import Mathlib

set_option autoImplicit false

/-!
Verification of the NII-RAG faculty-aware retrieval core.

The Python source is shallowly embedded: strings are lists of characters,
documents are content plus an association-list of metadata, the vector store
and the text-generation model are function parameters (they are external
black-box collaborators of the core), and every search issued by the
retrieval cascade is recorded in a trace so that control-flow properties
("tier 5 never ran") are provable.
-/

namespace NiiRag

/-- Strings of the embedded program: plain lists of characters, so that all
Python string operations become structurally recursive functions. -/
abbrev Str := List Char

/-- Python `str.lower()` (ASCII, which covers every string the core handles). -/
def lower (s : Str) : Str := s.map Char.toLower

/-- Python `pat in hay`: contiguous-substring containment, checking `pat` as a
prefix at every suffix of `hay`. -/
def strContains (hay pat : Str) : Bool :=
  pat.isPrefixOf hay ||
    match hay with
    | [] => false
    | _ :: t => strContains t pat

/-- Python `str.strip()`: drop whitespace from both ends. -/
def strip (s : Str) : Str :=
  ((s.dropWhile Char.isWhitespace).reverse.dropWhile Char.isWhitespace).reverse

/-- Python `str.split()` with no separator: split on whitespace runs and drop
the empty pieces. -/
def splitWords (s : Str) : List Str :=
  (s.splitOnP Char.isWhitespace).filter (fun w => w ≠ [])

/-- Fuelled worker for `replaceStr`; the fuel is the length of the string, which
bounds the number of steps because each step consumes at least one character
when the pattern is non-empty. -/
def replaceAux (pat repl : Str) : Nat → Str → Str
  | 0, s => s
  | _ + 1, [] => []
  | fuel + 1, c :: rest =>
    if pat ≠ [] ∧ pat.isPrefixOf (c :: rest) then
      repl ++ replaceAux pat repl fuel ((c :: rest).drop pat.length)
    else
      c :: replaceAux pat repl fuel rest

/-- Python `s.replace(pat, repl)` for a non-empty pattern: leftmost,
non-overlapping replacement. -/
def replaceStr (s pat repl : Str) : Str := replaceAux pat repl s.length s

/-- A document as the core consumes it: page content plus scalar metadata.
Python's metadata dict is an association list; `getMeta` mirrors
`metadata.get(key, "")`. -/
structure Document where
  page_content : Str
  metadata : List (Str × Str)
deriving DecidableEq, Repr

/-- Python `doc.metadata.get(key, "")`. -/
def getMeta (d : Document) (key : Str) : Str :=
  ((d.metadata.find? (fun p => p.1 == key)).map (fun p => p.2)).getD []

/-- Python `doc.metadata[key] = value`: the new binding shadows any old one. -/
def setMeta (d : Document) (key value : Str) : Document :=
  { d with metadata := (key, value) :: d.metadata }

/-- The metadata key naming which faculty member a document is about. -/
def facultyNameKey : Str := "faculty_name".toList

/-- Content fingerprint used for deduplication (`_deduplicate_documents`):
first 150 characters, newlines replaced by spaces, surrounding whitespace
stripped. -/
def fingerprint (content : Str) : Str :=
  strip (replaceStr (content.take 150) ("\n".toList) (" ".toList))

/-- Worker of `_deduplicate_documents`: `seen` is the set of fingerprints
already emitted. -/
def dedupAux : List Str → List Document → List Document
  | _, [] => []
  | seen, d :: rest =>
    let cid := fingerprint d.page_content
    if cid ∈ seen then dedupAux seen rest
    else d :: dedupAux (cid :: seen) rest

/-- `_deduplicate_documents` from `utils/document_utils.py`: keep the first
document bearing each content fingerprint. -/
def deduplicateDocuments (docs : List Document) : List Document :=
  dedupAux [] docs

/-- `_finalize_results` from `core/retrieval.py`: deduplicate, truncate to `k`. -/
def finalizeResults (documents : List Document) (k : Nat) : List Document :=
  (deduplicateDocuments documents).take k

/-- Reference definition following the spec's words for deduplication: keep
each head and remove every later document with the head's fingerprint. -/
def keepFirsts : List Document → List Document
  | [] => []
  | d :: rest =>
    d :: keepFirsts (rest.filter (fun e => fingerprint e.page_content != fingerprint d.page_content))
termination_by l => l.length
decreasing_by
  simp only [List.length_cons]
  exact Nat.lt_succ_of_le (List.length_filter_le _ _)

/-! Shared verification predicates of `core/retrieval.py`. -/

/-- `_is_document_about_faculty`: metadata equality, then full-name-in-content
with component corroboration, then partial metadata containment. The first
branch compares the lowercased metadata with the raw target, exactly as the
source does. -/
def isDocumentAboutFaculty (document : Document) (target_faculty : Str) : Bool :=
  let doc_faculty := lower (getMeta document facultyNameKey)
  let doc_content := lower document.page_content
  let target_lower := lower target_faculty
  if doc_faculty = target_faculty then true
  else if strContains doc_content target_lower &&
      2 ≤ ((splitWords (strip (replaceStr (replaceStr target_lower ("dr.".toList) [])
              ("prof.".toList) []))).countP
            (fun component => 3 < component.length && strContains doc_content component)) then
    true
  else if strContains doc_faculty target_lower || strContains target_lower doc_faculty then true
  else false

/-- `_extract_name_components`: strip titles, split, keep components longer
than two characters. -/
def extractNameComponents (faculty_name : Str) : List Str :=
  (splitWords (strip (replaceStr (replaceStr faculty_name ("Dr.".toList) [])
    ("Prof.".toList) []))).filter (fun comp => 2 < comp.length)

/-- The sixteen-surname set `_get_prioritized_name_components` deprioritizes. -/
def commonSurnamesLarge : List Str :=
  ["gupta".toList, "kumar".toList, "singh".toList, "sharma".toList, "yadav".toList,
   "roy".toList, "das".toList, "pal".toList, "suri".toList, "rani".toList, "ali".toList,
   "anand".toList, "basu".toList, "dhar".toList, "meena".toList, "negi".toList]

/-- The eight-surname set used by `_validate_partial_match_strict`. -/
def commonSurnamesSmall : List Str :=
  ["gupta".toList, "kumar".toList, "singh".toList, "sharma".toList, "yadav".toList,
   "roy".toList, "das".toList, "pal".toList]

/-- `_get_prioritized_name_components`: distinctive components first, common
surnames last, components of length at most two dropped. -/
def getPrioritizedNameComponents (faculty_name : Str) : List Str :=
  let cleaned_name := strip (replaceStr (replaceStr faculty_name ("Dr.".toList) [])
    ("Prof.".toList) [])
  let components := splitWords cleaned_name
  if components.length ≤ 1 then components
  else
    let longEnough := components.filter (fun comp => 2 < comp.length)
    longEnough.filter (fun comp => lower comp ∉ commonSurnamesLarge) ++
      longEnough.filter (fun comp => lower comp ∈ commonSurnamesLarge)

/-- The distinctive (non-common-surname) components of the target used by
`_validate_partial_match_strict`. -/
def uniqueComponents (faculty_name : Str) : List Str :=
  (extractNameComponents faculty_name).filter (fun comp => lower comp ∉ commonSurnamesSmall)

/-- `_validate_partial_match_strict`: four accepting layers, then explicit
rejections for wrong-faculty metadata and bare common surnames. -/
def validatePartialMatchStrict (document : Document) (faculty_name component : Str) : Bool :=
  let doc_faculty := lower (getMeta document facultyNameKey)
  let doc_content := lower document.page_content
  let target_lower := lower faculty_name
  let component_lower := lower component
  if doc_faculty ≠ [] && strContains doc_faculty target_lower then true
  else if strContains doc_content component_lower && strContains doc_content target_lower then
    true
  else if 2 ≤ (uniqueComponents faculty_name).length &&
      2 ≤ ((uniqueComponents faculty_name).countP
            (fun comp => strContains doc_content (lower comp))) then
    true
  else if (uniqueComponents faculty_name).length = 1 &&
      ((uniqueComponents faculty_name).map lower) = [component_lower] &&
      strContains doc_content component_lower then
    true
  else if doc_faculty ≠ [] && doc_faculty ≠ target_lower &&
      !strContains doc_faculty target_lower then
    false
  else if component_lower ∈ commonSurnamesSmall then false
  else false

/-! The retrieval cascade of `EnhancedFacultyRetriever`. The vector store, the
cross-domain stores, the filesystem check and the extractor are the retriever's
collaborators, so they are fields of the environment; a search result of `none`
models the backend raising an exception (caught by the source at every call
site). Every issued similarity search is recorded as a `SearchCall`. -/

/-- One `similarity_search` invocation: query text, fetch count, optional
`faculty_name` equality filter, and the collection it was issued against
(`none` means the retriever's active collection). -/
structure SearchCall where
  queryText : Str
  fetchK : Nat
  facultyFilter : Option Str
  collection : Option Str
deriving DecidableEq, Repr

/-- The retriever's collaborators and configuration. -/
structure RetrieverEnv where
  search : Str → Nat → Option Str → Option (List Document)
  domainExists : Str → Bool
  domainSearch : Str → Str → Nat → Option Str → Option (List Document)
  extractNames : Str → List Str
  firstNames : List (Str × Str)
  falsePositives : List Str
  domain : Str

/-- `_verify_faculty_relevance`: keep the documents verified to be about the
target faculty member. -/
def verifyFacultyRelevance (documents : List Document) (target_faculty : Str) :
    List Document :=
  documents.filter (fun doc => isDocumentAboutFaculty doc target_faculty)

/-- Tier 1, `_execute_exact_metadata_search`: for each extracted name, filter
by `faculty_name` metadata, verify, and stop at the first name with verified
hits; a raised search exception skips to the next name. -/
def executeExactMetadataSearch (env : RetrieverEnv) :
    List Str → Str → Nat → List Document × List SearchCall
  | [], _, _ => ([], [])
  | faculty_name :: rest, query, k =>
    let call : SearchCall := ⟨query, k * 2, some faculty_name, none⟩
    let next := fun () =>
      let r := executeExactMetadataSearch env rest query k
      (r.1, call :: r.2)
    match env.search query (k * 2) (some faculty_name) with
    | none => next ()
    | some filtered_docs =>
      if filtered_docs = [] then next ()
      else
        let verified_docs := verifyFacultyRelevance filtered_docs faculty_name
        if verified_docs = [] then next () else (verified_docs, [call])

/-- The academic-context indicator list of `_validate_first_name_context` in
`core/retrieval.py`. -/
def academicIndicatorsRetrieval : List Str :=
  ["dr".toList, "prof".toList, "faculty".toList, "email".toList, "contact".toList,
   "research".toList, "publication".toList, "lab".toList, "about".toList,
   "tell me".toList, "working on".toList]

/-- `_validate_first_name_context` in `core/retrieval.py`: no false-positive
phrase, and some academic indicator somewhere in the query. -/
def validateFirstNameContext (env : RetrieverEnv) (query_lower : Str) : Bool :=
  if env.falsePositives.any (fun fp => strContains query_lower fp) then false
  else academicIndicatorsRetrieval.any (fun ind => strContains query_lower ind)

/-- The first entry of `FIRST_NAMES` matching the query (word or substring) in
a validated context; the source breaks at the first match. -/
def firstNameMatch (env : RetrieverEnv) (query_lower : Str) : Option Str :=
  env.firstNames.findSome? (fun p =>
    if ((splitWords query_lower).contains p.1 || strContains query_lower p.1) &&
        validateFirstNameContext env query_lower then
      some p.2
    else none)

/-- Tier 2, `_execute_first_name_search`: resolve a faculty name via
`FIRST_NAMES`, try the exact metadata filter, and fall back to a semantic
search seeded with the resolved name, post-filtered by the verification
predicate. -/
def executeFirstNameSearch (env : RetrieverEnv) (query query_lower : Str) (k : Nat) :
    List Document × List SearchCall :=
  match firstNameMatch env query_lower with
  | none => ([], [])
  | some faculty_name =>
    let call1 : SearchCall := ⟨query, k * 2, some faculty_name, none⟩
    match env.search query (k * 2) (some faculty_name) with
    | none => ([], [call1])
    | some first_name_docs =>
      let verified_docs := verifyFacultyRelevance first_name_docs faculty_name
      if verified_docs ≠ [] then (verified_docs, [call1])
      else
        let enhanced_query := faculty_name ++ (" ".toList) ++ query
        let call2 : SearchCall := ⟨enhanced_query, k, none, none⟩
        match env.search enhanced_query k none with
        | none => ([], [call1, call2])
        | some semantic_docs =>
          (semantic_docs.filter (fun doc => isDocumentAboutFaculty doc faculty_name),
           [call1, call2])

/-- Tier 3 inner loop: try each prioritized component of one faculty name; a
raised search exception aborts the whole per-name attempt. -/
def partialSearchComponents (env : RetrieverEnv) (faculty_name query : Str) (k : Nat) :
    List Str → List Document × List SearchCall
  | [] => ([], [])
  | component :: rest =>
    if 2 < component.length then
      let enhanced_query := component ++ (" ".toList) ++ query
      let call : SearchCall := ⟨enhanced_query, k * 3, none, none⟩
      match env.search enhanced_query (k * 3) none with
      | none => ([], [call])
      | some windowDocs =>
        let verified_docs := windowDocs.filter
          (fun doc => validatePartialMatchStrict doc faculty_name component)
        if verified_docs ≠ [] then (verified_docs, [call])
        else
          let r := partialSearchComponents env faculty_name query k rest
          (r.1, call :: r.2)
    else partialSearchComponents env faculty_name query k rest

/-- Tier 3, `_execute_partial_name_search`: stop at the first extracted name
whose prioritized components yield strictly validated documents. -/
def executePartialNameSearch (env : RetrieverEnv) :
    List Str → Str → Nat → List Document × List SearchCall
  | [], _, _ => ([], [])
  | faculty_name :: rest, query, k =>
    let r := partialSearchComponents env faculty_name query k
      (getPrioritizedNameComponents faculty_name)
    if r.1 ≠ [] then r
    else
      let r' := executePartialNameSearch env rest query k
      (r'.1, r.2 ++ r'.2)

/-- `_determine_cross_domain_strategy`: pick 1-2 alternate collections from
query-intent keywords, dropping the active collection. -/
def determineCrossDomainStrategy (query_lower : Str) (current_domain : Str) : List Str :=
  let contact_keywords := ["email".toList, "phone".toList, "contact".toList,
    "extension".toList, "call".toList, "reach".toList]
  let research_keywords := ["research".toList, "interests".toList, "working on".toList,
    "projects".toList, "focus".toList]
  let publication_keywords := ["publications".toList, "papers".toList, "articles".toList,
    "published".toList]
  let domains_to_try :=
    if contact_keywords.any (fun w => strContains query_lower w) then
      ["staff".toList, "faculty_info".toList]
    else if research_keywords.any (fun w => strContains query_lower w) then
      ["research".toList, "faculty_info".toList]
    else if publication_keywords.any (fun w => strContains query_lower w) then
      ["publications".toList, "faculty_info".toList]
    else ["faculty_info".toList, "staff".toList, "research".toList]
  domains_to_try.filter (fun d => d ≠ current_domain)

/-- Per-name loop of `_search_target_domain`: exact filter first, then a
name-seeded semantic search at half fetch count, post-filtered. -/
def searchTargetDomainNames (env : RetrieverEnv) (target_domain query : Str) (k : Nat) :
    List Str → List Document × List SearchCall
  | [] => ([], [])
  | faculty_name :: rest =>
    let call1 : SearchCall := ⟨query, k, some faculty_name, some target_domain⟩
    let next := fun (calls : List SearchCall) =>
      let r := searchTargetDomainNames env target_domain query k rest
      (r.1, calls ++ r.2)
    match env.domainSearch target_domain query k (some faculty_name) with
    | none => next [call1]
    | some exact_docs =>
      let verified_docs := verifyFacultyRelevance exact_docs faculty_name
      if exact_docs ≠ [] ∧ verified_docs ≠ [] then (verified_docs, [call1])
      else
        let enhanced_query := faculty_name ++ (" ".toList) ++ query
        let call2 : SearchCall := ⟨enhanced_query, k / 2, none, some target_domain⟩
        match env.domainSearch target_domain enhanced_query (k / 2) none with
        | none => next [call1, call2]
        | some semantic_docs =>
          let verified_semantic := semantic_docs.filter
            (fun doc => isDocumentAboutFaculty doc faculty_name)
          if verified_semantic ≠ [] then (verified_semantic, [call1, call2])
          else next [call1, call2]

/-- `_search_target_domain`: nothing when the collection directory is missing,
else the per-name loop against the opened collection. -/
def searchTargetDomain (env : RetrieverEnv) (extracted_names : List Str)
    (query target_domain : Str) (k : Nat) : List Document × List SearchCall :=
  if env.domainExists target_domain then
    searchTargetDomainNames env target_domain query k extracted_names
  else ([], [])

/-- Tier 4, `_execute_cross_domain_search`: try each target collection, tag
the first non-empty result with its source collection. -/
def executeCrossDomainSearch (env : RetrieverEnv) (extracted_names : List Str)
    (query : Str) (k : Nat) : List Document × List SearchCall :=
  let rec go : List Str → List Document × List SearchCall
    | [] => ([], [])
    | target_domain :: rest =>
      let r := searchTargetDomain env extracted_names query target_domain k
      if r.1 ≠ [] then
        (r.1.map (fun doc => setMeta doc ("cross_domain_source".toList) target_domain), r.2)
      else
        let r' := go rest
        (r'.1, r.2 ++ r'.2)
  go (determineCrossDomainStrategy (lower query) env.domain)

/-- The widened tier-5 query: all extracted names joined by spaces, prepended
to the raw query. -/
def enhancedFallbackQuery (extracted_names : List Str) (query : Str) : Str :=
  List.intercalate (" ".toList) extracted_names ++ (" ".toList) ++ query

/-- Tier 5, `_execute_semantic_fallback`: plain similarity search on the
(possibly widened) query; with extracted names, post-filter by the
verification predicate but fall back to the unfiltered results when the
filter empties the set. -/
def executeSemanticFallback (env : RetrieverEnv) (query : Str)
    (extracted_names : List Str) (k : Nat) : List Document × List SearchCall :=
  let enhanced_query :=
    if extracted_names ≠ [] then enhancedFallbackQuery extracted_names query else query
  let call : SearchCall := ⟨enhanced_query, k * 2, none, none⟩
  match env.search enhanced_query (k * 2) none with
  | none => ([], [call])
  | some semantic_docs =>
    if extracted_names ≠ [] then
      let filtered_docs := semantic_docs.filter
        (fun doc => extracted_names.any (fun name => isDocumentAboutFaculty doc name))
      if filtered_docs ≠ [] then (filtered_docs, [call]) else (semantic_docs, [call])
    else (semantic_docs, [call])

/-- `retrieve_with_faculty_awareness`: the five-tier cascade; each tier
short-circuits on non-empty results, and every returned list passes through
`_finalize_results`. -/
def retrieveWithFacultyAwareness (env : RetrieverEnv) (query : Str) (k : Nat) :
    List Document × List SearchCall :=
  let extracted_names := env.extractNames query
  let query_lower := lower query
  let r1 :=
    if extracted_names ≠ [] then executeExactMetadataSearch env extracted_names query k
    else ([], [])
  if r1.1 ≠ [] then (finalizeResults r1.1 k, r1.2)
  else
    let r2 := executeFirstNameSearch env query query_lower k
    if r2.1 ≠ [] then (finalizeResults r2.1 k, r1.2 ++ r2.2)
    else
      let r3 :=
        if extracted_names ≠ [] then executePartialNameSearch env extracted_names query k
        else ([], [])
      if r3.1 ≠ [] then (finalizeResults r3.1 k, r1.2 ++ r2.2 ++ r3.2)
      else
        let r4 :=
          if extracted_names ≠ [] then executeCrossDomainSearch env extracted_names query k
          else ([], [])
        if r4.1 ≠ [] then (finalizeResults r4.1 k, r1.2 ++ r2.2 ++ r3.2 ++ r4.2)
        else
          let r5 := executeSemanticFallback env query extracted_names k
          (finalizeResults r5.1 k, r1.2 ++ r2.2 ++ r3.2 ++ r4.2 ++ r5.2)

/-! The entity extractor of `core/faculty_extractor.py`. The faculty tables
(`KNOWN_FACULTY`, `FIRST_NAMES`, `AMBIGUOUS_NAMES`, `SPECIAL_POSITIONS`,
`FALSE_POSITIVES`) live in `config/faculty_data.py` and are loaded once at
startup; they are fields of `ExtractorData`, matching the constructor of
`FacultyNameExtractor`. Table iteration order is Python dict insertion order,
so tables are association lists. -/

/-- The static faculty tables the extractor is constructed with. -/
structure ExtractorData where
  knownFaculty : List (Str × Str)
  ambiguousNames : List (Str × List Str)
  firstNames : List (Str × Str)
  specialPositions : List (Str × Str)
  falsePositives : List Str

/-- Python `table.get(key)` on a dict modelled as an association list. -/
def lookupTable (table : List (Str × Str)) (key : Str) : Option Str :=
  ((table.find? (fun p => p.1 == key)).map (fun p => p.2))

/-- Python `AMBIGUOUS_NAMES.get(key)`. -/
def lookupAmbiguous (table : List (Str × List Str)) (key : Str) : Option (List Str) :=
  ((table.find? (fun p => p.1 == key)).map (fun p => p.2))

/-- The pronoun vocabulary shared by preprocessing and the reference
resolver. -/
def pronounWords : List Str :=
  ["his".toList, "her".toList, "their".toList, "its".toList, "he".toList,
   "she".toList, "they".toList]

/-- The exit-intent vocabulary. -/
def exitWords : List Str :=
  ["bye".toList, "goodbye".toList, "exit".toList, "quit".toList, "thanks".toList,
   "thank you".toList]

/-- The faculty-list-intent vocabulary. -/
def facultyListPatterns : List Str :=
  ["faculty list".toList, "list of faculty".toList, "all faculty".toList,
   "faculty members".toList, "current faculty".toList, "show faculty".toList,
   "institute faculty".toList]

/-- The director-intent vocabulary. -/
def directorPatterns : List Str :=
  ["director".toList, "current director".toList, "nii director".toList,
   "institute director".toList]

/-- The result of `_fallback_query_preprocessing` (identical to
`_cached_query_preprocessing`). -/
structure QueryFlags where
  hasPronouns : Bool
  hasExitWords : Bool
  hasFacultyListPatterns : Bool
  hasDirectorPatterns : Bool
deriving DecidableEq, Repr

/-- `_fallback_query_preprocessing`: the four lexical classification flags. -/
def queryPreprocessing (query_lower : Str) : QueryFlags where
  hasPronouns := pronounWords.any (fun p => (splitWords query_lower).contains p)
  hasExitWords := exitWords.any (fun w => strContains query_lower w)
  hasFacultyListPatterns := facultyListPatterns.any (fun p => strContains query_lower p)
  hasDirectorPatterns := directorPatterns.any (fun p => strContains query_lower p)

/-- `_try_exact_faculty_matching`: first `KNOWN_FACULTY` key that is a
substring of the lowercased query, with a truthy lookup result. -/
def tryExactFacultyMatching (db : ExtractorData) (query_lower : Str) : Option Str :=
  db.knownFaculty.findSome? (fun p =>
    if strContains query_lower p.1 then
      match lookupTable db.knownFaculty p.1 with
      | some result => if result ≠ [] then some result else none
      | none => none
    else none)

/-- The academic-context indicator list of `_is_valid_name_context` in the
extractor (richer than the retriever's). -/
def academicIndicatorsExtractor : List Str :=
  ["dr".toList, "prof".toList, "professor".toList, "doctor".toList, "faculty".toList,
   "email".toList, "contact".toList, "research".toList, "publication".toList,
   "lab".toList, "about".toList, "tell me".toList, "working on".toList,
   "interests".toList, "phone".toList, "extension".toList]

/-- Python `hay.find(pat)`: index of the first occurrence, `none` for `-1`. -/
def findIndex (hay pat : Str) : Option Nat :=
  (List.range (hay.length + 1)).find? (fun i => pat.isPrefixOf (hay.drop i))

/-- `_is_valid_name_context`: reject on false-positive phrases, then accept on
an academic indicator in a ten-character window around the name or anywhere in
the query. -/
def isValidNameContext (db : ExtractorData) (query_lower name : Str) : Bool :=
  if db.falsePositives.any (fun fp => strContains query_lower fp) then false
  else
    (match findIndex query_lower name with
     | some name_position =>
       let context_start := name_position - 10
       let context_end := min query_lower.length (name_position + name.length + 10)
       let name_context := (query_lower.take context_end).drop context_start
       academicIndicatorsExtractor.any (fun ind => strContains name_context ind)
     | none => false) ||
    academicIndicatorsExtractor.any (fun ind => strContains query_lower ind)

/-- `_try_first_name_matching`: first `FIRST_NAMES` key present as a word or
substring in a valid context, with a truthy lookup result. -/
def tryFirstNameMatching (db : ExtractorData) (query_lower : Str) : Option Str :=
  let query_words := splitWords query_lower
  db.firstNames.findSome? (fun p =>
    if (query_words.contains p.1 || strContains query_lower p.1) &&
        isValidNameContext db query_lower p.1 then
      match lookupTable db.firstNames p.1 with
      | some result => if result ≠ [] then some result else none
      | none => none
    else none)

/-- The stop-word set of `_extract_query_words`. -/
def stopWords : List Str :=
  ["the".toList, "of".toList, "and".toList, "or".toList, "but".toList, "in".toList,
   "on".toList, "at".toList, "to".toList, "for".toList, "is".toList, "are".toList,
   "was".toList, "were".toList]

/-- `_extract_query_words`: strip titles, split, drop stop words and words of
length at most two. -/
def extractQueryWords (query_lower : Str) : List Str :=
  (splitWords (strip (replaceStr (replaceStr query_lower ("dr.".toList) [])
    ("prof.".toList) []))).filter
    (fun word => 2 < word.length && !stopWords.contains word)

/-- All contiguous 1-3 word windows `" ".join(words[i:j])` tried by
`_try_enhanced_partial_matching`, in loop order. -/
def candidateWindows (words : List Str) : List Str :=
  (List.range words.length).flatMap (fun i =>
    (List.range' (i + 1) (min (i + 4) (words.length + 1) - (i + 1))).map (fun j =>
      List.intercalate (" ".toList) ((words.drop i).take (j - i))))

/-- `_is_name_similarity`: word-set overlap at least 0.6 of the smaller name's
word count. The float literal `0.6` is modelled as the rational 3/5, which
agrees with the double-precision comparison on every reachable word count. -/
def isNameSimilarity (potential_name known_name : Str) : Bool :=
  let potential_words := (splitWords potential_name).dedup
  let known_words := (splitWords known_name).dedup
  let overlap := (potential_words.filter (fun w => w ∈ known_words)).length
  let min_words := min potential_words.length known_words.length
  0 < overlap && 3 * min_words ≤ 5 * overlap

/-- `_match_partial_name`: substring or similarity match against
`KNOWN_FACULTY`, then two-way substring match against `FIRST_NAMES`. -/
def matchPartialName (db : ExtractorData) (potential_name : Str) : Option Str :=
  match db.knownFaculty.findSome? (fun p =>
    if strContains p.1 potential_name || isNameSimilarity potential_name p.1 then
      some p.2
    else none) with
  | some full_name => some full_name
  | none =>
    db.firstNames.findSome? (fun p =>
      if strContains p.1 potential_name || strContains potential_name p.1 then
        some p.2
      else none)

/-- `_try_enhanced_partial_matching`: first candidate window that is neither
too short nor a false positive and matches a faculty database with a truthy
result. -/
def tryEnhancedPartialMatching (db : ExtractorData) (query_lower : Str) : Option Str :=
  (candidateWindows (extractQueryWords query_lower)).findSome? (fun potential_name =>
    if potential_name.length < 3 || db.falsePositives.contains potential_name then none
    else
      match matchPartialName db potential_name with
      | some matched_faculty =>
        if matched_faculty ≠ [] then some matched_faculty else none
      | none => none)

/-- The disambiguation clue table hardcoded in `_disambiguate_names`. -/
def disambiguationClues : List (Str × List Str) :=
  [("Dr. Sarika Gupta".toList,
    ["neurodegenerative".toList, "protein".toList, "misfolding".toList,
     "sarika".toList, "chemical biology".toList]),
   ("Dr. Nimesh Gupta".toList,
    ["virus".toList, "immunology".toList, "vaccine".toList, "infection".toList,
     "nimesh".toList]),
   ("Dr. Anil Kumar".toList,
    ["microbiome".toList, "cancer".toList, "biology".toList, "anil".toList,
     "genetics".toList]),
   ("Dr. Rajesh Kumar Yadav".toList,
    ["epigenetics".toList, "cancer".toList, "chromatin".toList, "rajesh".toList]),
   ("Dr. Narendra Kumar".toList,
    ["narendra".toList, "narender".toList, "structural".toList, "protein".toList])]

/-- The clue weights of `_disambiguate_names`: longer clues score higher. -/
def clueWeight (clue : Str) : Nat :=
  if 8 < clue.length then 3 else if 5 < clue.length then 2 else 1

/-- The clue list of one candidate (`disambiguation_clues.get(candidate, [])`). -/
def cluesFor (candidate : Str) : List Str :=
  ((disambiguationClues.find? (fun p => p.1 == candidate)).map (fun p => p.2)).getD []

/-- The score of one candidate against the lowercased query: sum of weights of
the candidate's clues contained in it. -/
def candidateScore (query_lower candidate : Str) : Nat :=
  ((cluesFor candidate).filter (fun clue => strContains query_lower clue)).foldl
    (fun score clue => score + clueWeight clue) 0

/-- The best-candidate fold of `_disambiguate_names`: strictly improving
score updates, so the first candidate attaining the maximum wins. -/
def selectBest (query_lower : Str) : List Str → Option Str × Nat → Option Str × Nat
  | [], acc => acc
  | candidate :: rest, (best, best_score) =>
    let score := candidateScore query_lower candidate
    if best_score < score then selectBest query_lower rest (some candidate, score)
    else selectBest query_lower rest (best, best_score)

/-- `_disambiguate_names`: the single best-scoring candidate when some clue
matched (and the winner is truthy), otherwise all candidates. -/
def disambiguateNames (query : Str) (candidates : List Str) : List Str :=
  let query_lower := lower query
  let r := selectBest query_lower candidates (none, 0)
  match r.1 with
  | some best_candidate =>
    if best_candidate ≠ [] && 0 < r.2 then [best_candidate] else candidates
  | none => candidates

/-- `_try_ambiguous_name_resolution`: first ambiguous surname contained in the
lowercased query with a truthy candidate set and a truthy disambiguation. -/
def tryAmbiguousNameResolution (db : ExtractorData) (query query_lower : Str) : List Str :=
  (db.ambiguousNames.findSome? (fun p =>
    if strContains query_lower p.1 then
      match lookupAmbiguous db.ambiguousNames p.1 with
      | some candidates =>
        if candidates ≠ [] then
          let disambiguated := disambiguateNames query candidates
          if disambiguated ≠ [] then some disambiguated else none
        else none
      | none => none
    else none)).getD []

/-- The key of the director role in `SPECIAL_POSITIONS`. -/
def directorKey : Str := "director".toList

/-- `_extract_names_internal`: early exits, the director override, then the
four-strategy cascade. -/
def extractNamesInternal (db : ExtractorData) (query : Str) : List Str :=
  let query_lower := lower query
  let flags := queryPreprocessing query_lower
  if flags.hasExitWords || flags.hasFacultyListPatterns then []
  else if flags.hasDirectorPatterns then
    match lookupTable db.specialPositions directorKey with
    | some director_name => if director_name ≠ [] then [director_name] else []
    | none => []
  else
    match tryExactFacultyMatching db query_lower with
    | some name => [name]
    | none =>
      match tryFirstNameMatching db query_lower with
      | some name => [name]
      | none =>
        match tryEnhancedPartialMatching db query_lower with
        | some name => [name]
        | none => tryAmbiguousNameResolution db query query_lower

/-! Conversational reference resolution, `rewrite_query_with_context` in
`core/memory.py`. The language model is a function parameter returning
`none` when the generation call raises. -/

/-- One entry of the chat history: a dict with optional `query`/`response`
keys, or any other value rendered by `str(chat)`. -/
inductive ChatEntry where
  | dictEntry (queryField responseField : Option Str)
  | otherEntry (text : Str)
deriving DecidableEq, Repr

/-- The context lines built from one history entry: `User:` and `Assistant:`
lines for a dict (the response truncated to 300 characters plus an ellipsis),
the raw rendering otherwise. -/
def entryContextParts : ChatEntry → List Str
  | .dictEntry queryField responseField =>
    (match queryField with
     | some q => [("User: ".toList) ++ q]
     | none => []) ++
    (match responseField with
     | some response =>
       [("Assistant: ".toList) ++
         (if 300 < response.length then response.take 300 ++ ("...".toList) else response)]
     | none => [])
  | .otherEntry text => [text]

/-- The implicit-reference cue words checked alongside pronouns. -/
def implicitReferenceWords : List Str :=
  ["about his".toList, "about her".toList, "publications".toList, "research".toList,
   "lab".toList]

/-- The rewrite instruction, the f-string of `memory.py` with the context and
query spliced in. -/
def rewritePrompt (context query : Str) : Str :=
  ("Given this conversation history:\n    ".toList) ++ context ++
  ("\n\n    The user now asks: \"".toList) ++ query ++
  ("\"\n\n    IMPORTANT: Look at the MOST RECENT person mentioned in the conversation.\n    - If the last person mentioned was female (Dr. Sarika Gupta, Dr. Monica Sundd, etc.), replace \"his\" with her name\n    - If the last person mentioned was male (Dr. Debasisa Mohanty, Dr. Nimesh Gupta, etc.), replace \"her\" with his name\n".toList) ++
  ("\n    Rewrite this query to be self-contained by:\n    1. Replacing ALL pronouns (his/her/their) with the actual person's FULL NAME from the conversation\n    2. The person's name should be exactly as it appears in the conversation (e.g., \"Dr. Monica Sundd\")\n    3. Keep the query natural and concise\n".toList) ++
  ("\n    Examples:\n    - Context: \"Tell me about Dr. Monica Sundd\" → Query: \"her publications\" → \"Dr. Monica Sundd's publications\"\n    - Context: \"Tell me about Dr. Sarika Gupta\" → Query: \"his publications\" → \"Dr. Sarika Gupta's publications\"\n    - Context: \"Who is the director\" (Dr. Debasisa Mohanty) → Query: \"his research\" → \"Dr. Debasisa Mohanty's research\"\n".toList) ++
  ("\n    For the current conversation, identify the most recent person mentioned and rewrite accordingly.\n\n    Return ONLY the rewritten query, nothing else:".toList)

/-- `rewrite_query_with_context`: identity on empty history, pronoun-free and
cue-free queries, and queries already naming a person; otherwise one
generation call whose stripped output is accepted only when non-empty and
shorter than 200 characters, with any failure falling back to the original
query. -/
def rewriteQueryWithContext (llm : Str → Option Str) (query : Str)
    (chat_history : List ChatEntry) : Str :=
  if chat_history = [] then query
  else
    let query_lower := lower query
    if !(pronounWords.any (fun p => (splitWords query_lower).contains p)) &&
        !(implicitReferenceWords.any (fun w => strContains query_lower w)) then
      query
    else if strContains query_lower ("dr.".toList) ||
        strContains query_lower ("prof.".toList) then
      query
    else
      let context_parts := ((chat_history.getLast?).map entryContextParts).getD []
      if context_parts = [] then query
      else
        let context := List.intercalate ("\n".toList) context_parts
        match llm (rewritePrompt context query) with
        | none => query
        | some output =>
          let rewritten := strip output
          if 0 < rewritten.length ∧ rewritten.length < 200 then rewritten else query

/-! Context formatting: `format_docs` in `utils/document_utils.py` and the
context-size clamp of `chain_logic` in `chains/rag_chain.py`. -/

/-- One numbered block of `format_docs`: header plus the content truncated to
the per-document character budget with an ellipsis. -/
def formatDocBlock (i : Nat) (doc : Document) (max_chars_per_doc : Nat) : Str :=
  ("Document ".toList) ++ (Nat.repr (i + 1)).toList ++ (":\n".toList) ++
    (if max_chars_per_doc < doc.page_content.length then
      doc.page_content.take max_chars_per_doc ++ ("...".toList)
    else doc.page_content)

/-- The blocks `format_docs` joins: one per document up to the document cap. -/
def formatBlocks (docs : List Document) (max_docs max_chars_per_doc : Nat) : List Str :=
  (docs.take max_docs).enum.map (fun p => formatDocBlock p.1 p.2 max_chars_per_doc)

/-- `format_docs`: a placeholder for an empty list, else the numbered blocks
joined by blank lines. -/
def formatDocs (docs : List Document) (max_docs max_chars_per_doc : Nat) : Str :=
  if docs = [] then ("No relevant documents found.".toList)
  else List.intercalate ("\n\n".toList) (formatBlocks docs max_docs max_chars_per_doc)

/-- The overall context ceiling of `chain_logic`. -/
def contextCeiling (is_director_query : Bool) : Nat :=
  if is_director_query then 4500 else 3500

/-- The marker `chain_logic` appends when the context is cut. -/
def truncationMarker : Str := "\n... [Content truncated]".toList

/-- The context-formatting step of `chain_logic`: `format_docs` with the
director-dependent caps and budgets, then a hard cut at the ceiling with the
truncation marker appended. -/
def chainFormatContext (docs : List Document) (is_director_query : Bool) : Str :=
  let context := formatDocs docs
    (if is_director_query || 3 < docs.length then 5 else 3)
    (if is_director_query then 900 else 800)
  if contextCeiling is_director_query < context.length then
    context.take (contextCeiling is_director_query) ++ truncationMarker
  else context

/-! Claim-side statements and concrete instances used by the theorems below. -/

/-- Two documents clash when they share a content fingerprint. -/
def distinctFingerprints (a b : Document) : Prop :=
  fingerprint a.page_content ≠ fingerprint b.page_content

/-- Claim branch 1: the document's `faculty_name` metadata equals the target
name. -/
abbrev metadataEqualsTarget (document : Document) (target : Str) : Prop :=
  getMeta document facultyNameKey = target

/-- Claim branch 2: the target's lowercased full name appears in the
lowercased content, and at least two of the target's title-stripped name
components of length greater than three also appear in the content. -/
abbrev contentNamesTarget (document : Document) (target : Str) : Prop :=
  strContains (lower document.page_content) (lower target) = true ∧
  2 ≤ ((splitWords (strip (replaceStr (replaceStr (lower target) ("dr.".toList) [])
        ("prof.".toList) []))).countP
      (fun component =>
        3 < component.length && strContains (lower document.page_content) component))

/-- Claim branch 3: the lowercased metadata faculty field and the lowercased
target are substrings of one another (one contains the other). -/
abbrev metadataOverlapsTarget (document : Document) (target : Str) : Prop :=
  strContains (lower (getMeta document facultyNameKey)) (lower target) = true ∨
  strContains (lower target) (lower (getMeta document facultyNameKey)) = true

/-- Accepting layer 1: non-empty metadata faculty field containing the
lowercased target. -/
abbrev strictMetadataMatch (document : Document) (faculty_name : Str) : Prop :=
  lower (getMeta document facultyNameKey) ≠ [] ∧
  strContains (lower (getMeta document facultyNameKey)) (lower faculty_name) = true

/-- Accepting layer 2: the matched component and the full target name co-occur
in the content. -/
abbrev strictCoOccurrence (document : Document) (faculty_name component : Str) : Prop :=
  strContains (lower document.page_content) (lower component) = true ∧
  strContains (lower document.page_content) (lower faculty_name) = true

/-- Accepting layer 3: at least two distinctive components of the target are
present in the content. -/
abbrev strictMultiComponent (document : Document) (faculty_name : Str) : Prop :=
  2 ≤ (uniqueComponents faculty_name).length ∧
  2 ≤ ((uniqueComponents faculty_name).countP
        (fun comp => strContains (lower document.page_content) (lower comp)))

/-- Accepting layer 4: the target has exactly one distinctive component, it is
the matched component, and it is present in the content. -/
abbrev strictSingleUnique (document : Document) (faculty_name component : Str) : Prop :=
  (uniqueComponents faculty_name).length = 1 ∧
  (uniqueComponents faculty_name).map lower = [lower component] ∧
  strContains (lower document.page_content) (lower component) = true

/-- The concrete document of the C4 counterexample: its metadata names
Dr. Anil Kumar while its content is about Dr. Rajesh Kumar Yadav. -/
def wrongFacultyDoc : Document where
  page_content :=
    "dr. rajesh kumar yadav works on chromatin and epigenetics. rajesh leads the lab.".toList
  metadata := [("faculty_name".toList, "Dr. Anil Kumar".toList)]

/-- The document of the tier-1 witness environment. -/
def tier1Doc : Document where
  page_content := "dr. x leads a lab at the institute".toList
  metadata := [("faculty_name".toList, "dr. x".toList)]

/-- A concrete environment whose tier 1 succeeds: the store returns a verified
document for the exact metadata filter. -/
def envTier1 : RetrieverEnv where
  search := fun _ _ f =>
    match f with
    | some name => if name = ("dr. x".toList) then some [tier1Doc] else some []
    | none => some []
  domainExists := fun _ => false
  domainSearch := fun _ _ _ _ => some []
  extractNames := fun _ => [("dr. x".toList)]
  firstNames := []
  falsePositives := []
  domain := "faculty_info".toList

/-- A semantic-only document about a different faculty member, used by the
tier-5 witness environment. -/
def offTargetDoc : Document where
  page_content := "institute overview and history".toList
  metadata := [("faculty_name".toList, "dr. someone else".toList)]

/-- A concrete environment where only the widened tier-5 semantic search
returns anything, and what it returns fails the verification filter. -/
def envFallback : RetrieverEnv where
  search := fun q _ f =>
    match f with
    | some _ => some []
    | none =>
      if q = enhancedFallbackQuery [("dr. x".toList)] ("tell me about the research".toList)
      then some [offTargetDoc] else some []
  domainExists := fun _ => false
  domainSearch := fun _ _ _ _ => some []
  extractNames := fun _ => [("dr. x".toList)]
  firstNames := []
  falsePositives := []
  domain := "faculty_info".toList

/-- An environment whose store returns zero documents for every search. -/
def envEmptyStore : RetrieverEnv where
  search := fun _ _ _ => some []
  domainExists := fun _ => false
  domainSearch := fun _ _ _ _ => some []
  extractNames := fun _ => [("dr. x".toList)]
  firstNames := []
  falsePositives := []
  domain := "faculty_info".toList

/-- A table binding only the director role. -/
def dbDirector : ExtractorData where
  knownFaculty := []
  ambiguousNames := []
  firstNames := []
  specialPositions := [("director".toList, "Dr. Debasisa Mohanty".toList)]
  falsePositives := []

/-- The first ambiguous surname contained in the lowercased query with a
truthy candidate set (the pre-disambiguation part of
`_try_ambiguous_name_resolution`). -/
def firstAmbiguousCandidates (db : ExtractorData) (query_lower : Str) :
    Option (List Str) :=
  db.ambiguousNames.findSome? (fun p =>
    if strContains query_lower p.1 then
      match lookupAmbiguous db.ambiguousNames p.1 with
      | some candidates => if candidates ≠ [] then some candidates else none
      | none => none
    else none)

/-- A table with one ambiguous surname and its two candidates. -/
def dbAmbiguous : ExtractorData where
  knownFaculty := []
  ambiguousNames :=
    [("gupta".toList, ["Dr. Sarika Gupta".toList, "Dr. Nimesh Gupta".toList])]
  firstNames := []
  specialPositions := []
  falsePositives := []

/-- A document one character longer than the default per-document budget. -/
def overlongDoc : Document where
  page_content := List.replicate 801 'a'
  metadata := []

/-! Deduplication lemmas. -/

lemma dedupAux_sublist (l : List Document) : ∀ seen, (dedupAux seen l).Sublist l := by
  induction l with
  | nil => intro seen; simp [dedupAux]
  | cons d t ih =>
    intro seen
    simp only [dedupAux]
    split
    · exact (ih seen).cons d
    · exact (ih _).cons₂ d

lemma dedupAux_pairwise (l : List Document) : ∀ seen,
    (dedupAux seen l).Pairwise distinctFingerprints ∧
    ∀ d ∈ dedupAux seen l, fingerprint d.page_content ∉ seen := by
  induction l with
  | nil => intro seen; simp [dedupAux]
  | cons d t ih =>
    intro seen
    simp only [dedupAux]
    split
    · exact ih seen
    · rename_i hmem
      obtain ⟨hpw, hseen⟩ := ih (fingerprint d.page_content :: seen)
      refine ⟨List.pairwise_cons.2 ⟨fun e he => ?_, hpw⟩, ?_⟩
      · have := hseen e he
        simp only [List.mem_cons, not_or] at this
        exact fun h => this.1 h.symm
      · intro e he
        rcases List.mem_cons.1 he with rfl | he'
        · exact hmem
        · have := hseen e he'
          simp only [List.mem_cons, not_or] at this
          exact this.2

lemma dedupAux_eq_self (l : List Document) : ∀ seen,
    l.Pairwise distinctFingerprints →
    (∀ d ∈ l, fingerprint d.page_content ∉ seen) →
    dedupAux seen l = l := by
  induction l with
  | nil => intro seen _ _; rfl
  | cons d t ih =>
    intro seen hpw hseen
    obtain ⟨hd, ht⟩ := List.pairwise_cons.1 hpw
    have hmem : fingerprint d.page_content ∉ seen := hseen d (List.mem_cons_self d t)
    simp only [dedupAux, if_neg hmem]
    congr 1
    refine ih _ ht (fun e he => ?_)
    simp only [List.mem_cons, not_or]
    exact ⟨fun h => hd e he h.symm, hseen e (List.mem_cons_of_mem d he)⟩

lemma dedupAux_eq_keepFirsts (l : List Document) : ∀ seen,
    dedupAux seen l =
      keepFirsts (l.filter (fun d => fingerprint d.page_content ∉ seen)) := by
  induction l with
  | nil => intro seen; simp [dedupAux, keepFirsts]
  | cons d t ih =>
    intro seen
    simp only [dedupAux, List.filter_cons]
    split
    · rename_i hmem
      rw [if_neg (by simpa using hmem)]
      exact ih seen
    · rename_i hmem
      rw [if_pos (by simpa using hmem)]
      rw [keepFirsts, ih (fingerprint d.page_content :: seen), List.filter_filter]
      have hf : ∀ e ∈ t,
          (decide (fingerprint e.page_content ∉ fingerprint d.page_content :: seen)) =
            ((fingerprint e.page_content != fingerprint d.page_content) &&
              decide (fingerprint e.page_content ∉ seen)) := by
        intro e _
        by_cases h1 : fingerprint e.page_content = fingerprint d.page_content <;>
          by_cases h2 : fingerprint e.page_content ∈ seen <;>
            simp [h1, h2, List.mem_cons]
      rw [List.filter_congr hf]

/-- The deduplicated list has pairwise distinct fingerprints. -/
lemma deduplicateDocuments_pairwise (docs : List Document) :
    (deduplicateDocuments docs).Pairwise distinctFingerprints :=
  (dedupAux_pairwise docs []).1

lemma finalizeResults_length (documents : List Document) (k : Nat) :
    (finalizeResults documents k).length ≤ k :=
  List.length_take_le k _

lemma finalizeResults_pairwise (documents : List Document) (k : Nat) :
    (finalizeResults documents k).Pairwise distinctFingerprints :=
  List.Pairwise.sublist (List.take_sublist k _) (deduplicateDocuments_pairwise documents)

/-- Every branch of the cascade returns a finalized list. -/
lemma retrieve_eq_finalize (env : RetrieverEnv) (query : Str) (k : Nat) :
    ∃ docs, (retrieveWithFacultyAwareness env query k).1 = finalizeResults docs k := by
  unfold retrieveWithFacultyAwareness
  dsimp only
  repeat' split
  all_goals exact ⟨_, rfl⟩

/-- C10: deduplication keeps exactly the first document bearing each content
fingerprint (it equals the spec-side `keepFirsts`), its output is a sublist of
its input (order preserved, no new documents), and it is idempotent. -/
theorem dedup_keeps_first_sublist_idempotent (docs : List Document) :
    deduplicateDocuments docs = keepFirsts docs ∧
    (deduplicateDocuments docs).Sublist docs ∧
    deduplicateDocuments (deduplicateDocuments docs) = deduplicateDocuments docs := by
  refine ⟨?_, dedupAux_sublist docs [], ?_⟩
  · rw [deduplicateDocuments, dedupAux_eq_keepFirsts]
    congr 1
    exact List.filter_eq_self.2 (fun e _ => by simp)
  · exact dedupAux_eq_self _ [] (deduplicateDocuments_pairwise docs) (by simp)

/-- C1: for every environment, query and k, the cascade returns at most k
documents, no two returned documents share a content fingerprint, and the
returned list is the image of some tier's result under the shared finalizer
(deduplicate, then truncate to k). -/
theorem retrieve_bounded_and_deduplicated (env : RetrieverEnv) (query : Str) (k : Nat) :
    (retrieveWithFacultyAwareness env query k).1.length ≤ k ∧
    (retrieveWithFacultyAwareness env query k).1.Pairwise distinctFingerprints ∧
    ∃ docs, (retrieveWithFacultyAwareness env query k).1 = finalizeResults docs k := by
  obtain ⟨docs, h⟩ := retrieve_eq_finalize env query k
  refine ⟨?_, ?_, ⟨docs, h⟩⟩
  · rw [h]; exact finalizeResults_length docs k
  · rw [h]; exact finalizeResults_pairwise docs k

/-! Lowercasing and containment lemmas. -/

lemma char_toNat_ofNat {n : Nat} (h : n < 55296) : (Char.ofNat n).toNat = n := by
  have hv : n.isValidChar := Or.inl h
  rw [Char.ofNat, dif_pos hv]
  simp [Char.ofNatAux, Char.toNat, UInt32.toNat, BitVec.toNat_ofNatLt]

lemma toLower_idem (c : Char) : c.toLower.toLower = c.toLower := by
  by_cases h : 65 ≤ c.toNat ∧ c.toNat ≤ 90
  · have h1 : c.toLower = Char.ofNat (c.toNat + 32) := by
      rw [Char.toLower, if_pos (by exact ⟨h.1, h.2⟩)]
    have h2 : (Char.ofNat (c.toNat + 32)).toNat = c.toNat + 32 :=
      char_toNat_ofNat (by omega)
    rw [h1, Char.toLower, if_neg (by rw [h2]; omega)]
  · have h1 : c.toLower = c := by
      rw [Char.toLower, if_neg (by exact fun hc => h ⟨hc.1, hc.2⟩)]
    rw [h1, h1]

lemma lower_idem (s : Str) : lower (lower s) = lower s := by
  simp only [lower, List.map_map]
  exact List.map_congr_left (fun c _ => toLower_idem c)

lemma strContains_self (s : Str) : strContains s s = true := by
  have h : s.isPrefixOf s := List.isPrefixOf_iff_prefix.2 (List.prefix_refl s)
  unfold strContains
  simp [h]

/-! C3: the shared verified-about-entity predicate. The claim-side branches,
stated from the spec's words. -/

/-- C3: the verified-about-entity predicate holds exactly when the metadata
equals the target, or the content names the target with two corroborating
components, or the metadata field and the target contain one another; it is
false in every other case. The code's first branch compares the lowercased
metadata against the raw target, but the two characterizations agree because
raw equality implies the mutual-containment branch. -/
theorem is_document_about_faculty_characterization (document : Document)
    (target_faculty : Str) :
    isDocumentAboutFaculty document target_faculty = true ↔
      (metadataEqualsTarget document target_faculty ∨
       contentNamesTarget document target_faculty ∨
       metadataOverlapsTarget document target_faculty) := by
  unfold isDocumentAboutFaculty metadataEqualsTarget contentNamesTarget metadataOverlapsTarget
  dsimp only
  split_ifs with h1 h2 h3
  · constructor
    · intro _
      right; right; left
      rw [← h1, lower_idem]
      exact strContains_self _
    · intro _; rfl
  · constructor
    · intro _
      right; left
      rw [Bool.and_eq_true, decide_eq_true_iff] at h2
      exact ⟨h2.1, h2.2⟩
    · intro _; rfl
  · constructor
    · intro _
      right; right
      rw [Bool.or_eq_true] at h3
      exact h3
    · intro _; rfl
  · simp only [false_iff]
    rintro (hA | hB | hC)
    · apply h3
      rw [Bool.or_eq_true]
      left
      rw [hA]
      exact strContains_self _
    · apply h2
      rw [Bool.and_eq_true, decide_eq_true_iff]
      exact ⟨hB.1, hB.2⟩
    · apply h3
      rw [Bool.or_eq_true]
      exact hC

/-! C4: the tier-3 strict partial-match validator. The four accepting layers
as claim-side propositions. -/

lemma validatePartialMatchStrict_iff (document : Document) (faculty_name component : Str) :
    validatePartialMatchStrict document faculty_name component = true ↔
      (strictMetadataMatch document faculty_name ∨
       strictCoOccurrence document faculty_name component ∨
       strictMultiComponent document faculty_name ∨
       strictSingleUnique document faculty_name component) := by
  unfold validatePartialMatchStrict strictMetadataMatch strictCoOccurrence
    strictMultiComponent strictSingleUnique
  dsimp only
  split_ifs with h1 h2 h3 h4 h5 h6
  · exact iff_of_true rfl (Or.inl (by simpa using h1))
  · exact iff_of_true rfl (Or.inr (Or.inl (by simpa using h2)))
  · exact iff_of_true rfl (Or.inr (Or.inr (Or.inl (by simpa using h3))))
  · refine iff_of_true rfl (Or.inr (Or.inr (Or.inr ?_)))
    simp only [Bool.and_eq_true, decide_eq_true_iff] at h4
    exact ⟨h4.1.1, h4.1.2, h4.2⟩
  all_goals
    simp only [false_iff]
    rintro (hA | hB | hC | hD)
    · exact h1 (by simp [hA.1, hA.2])
    · exact h2 (by simp [hB.1, hB.2])
    · exact h3 (by simp [hC.1, hC.2])
    · exact h4 (by simp [hD.1, hD.2.1, hD.2.2])

/-- C4 (amended): the strict validator rejects a document whose non-empty
metadata faculty field does not contain the target (a different faculty
member) provided no content-based accepting layer fires, and likewise rejects
a common-surname component match when no accepting layer fires; in general it
accepts exactly when one of the four accepting layers holds. -/
theorem validate_partial_match_strict_rejections (document : Document)
    (faculty_name component : Str) :
    (validatePartialMatchStrict document faculty_name component = true ↔
      (strictMetadataMatch document faculty_name ∨
       strictCoOccurrence document faculty_name component ∨
       strictMultiComponent document faculty_name ∨
       strictSingleUnique document faculty_name component)) ∧
    (lower (getMeta document facultyNameKey) ≠ [] →
      strContains (lower (getMeta document facultyNameKey)) (lower faculty_name) = false →
      ¬ strictCoOccurrence document faculty_name component →
      ¬ strictMultiComponent document faculty_name →
      ¬ strictSingleUnique document faculty_name component →
      validatePartialMatchStrict document faculty_name component = false) ∧
    (lower component ∈ commonSurnamesSmall →
      ¬ strictMetadataMatch document faculty_name →
      ¬ strictCoOccurrence document faculty_name component →
      ¬ strictMultiComponent document faculty_name →
      ¬ strictSingleUnique document faculty_name component →
      validatePartialMatchStrict document faculty_name component = false) := by
  refine ⟨validatePartialMatchStrict_iff document faculty_name component, ?_, ?_⟩
  · intro hne hnc hB hC hD
    rw [Bool.eq_false_iff]
    intro htrue
    rcases (validatePartialMatchStrict_iff document faculty_name component).1 htrue with
      hA | hB' | hC' | hD'
    · rw [hA.2] at hnc; exact Bool.noConfusion hnc
    · exact hB hB'
    · exact hC hC'
    · exact hD hD'
  · intro _ hA hB hC hD
    rw [Bool.eq_false_iff]
    intro htrue
    rcases (validatePartialMatchStrict_iff document faculty_name component).1 htrue with
      hA' | hB' | hC' | hD'
    · exact hA hA'
    · exact hB hB'
    · exact hC hC'
    · exact hD hD'

/-- C4 counterexample: the validator accepts this document although its
`faculty_name` metadata names a different faculty member than the target, so
rejection on wrong-faculty metadata is not unconditional. -/
theorem validate_partial_match_strict_not_unconditional :
    validatePartialMatchStrict wrongFacultyDoc ("Dr. Rajesh Kumar Yadav".toList)
        ("rajesh".toList) = true ∧
    getMeta wrongFacultyDoc facultyNameKey = ("Dr. Anil Kumar".toList) ∧
    lower (getMeta wrongFacultyDoc facultyNameKey) ≠
      lower ("Dr. Rajesh Kumar Yadav".toList) ∧
    strContains (lower (getMeta wrongFacultyDoc facultyNameKey))
      (lower ("Dr. Rajesh Kumar Yadav".toList)) = false := by
  decide

/-- C4 witness: at a concrete document about nobody in particular, the
rejection clauses of the theorem apply and the validator indeed rejects. -/
theorem validate_partial_match_strict_rejections_witness :
    validatePartialMatchStrict ⟨"general institute information".toList,
      [("faculty_name".toList, "Dr. Someone Else".toList)]⟩
      ("Dr. Sarika Gupta".toList) ("gupta".toList) = false := by
  exact (validate_partial_match_strict_rejections _ _ _).2.1 (by decide) (by decide)
    (by decide) (by decide) (by decide)

/-! C5: tier-1 short-circuit. -/

/-- Every search tier 1 issues carries the raw query text (and a metadata
filter), never a widened query. -/
lemma exactMetadataSearch_calls (env : RetrieverEnv) :
    ∀ (names : List Str) (query : Str) (k : Nat),
      ∀ c ∈ (executeExactMetadataSearch env names query k).2, c.queryText = query := by
  intro names
  induction names with
  | nil => intro query k c hc; simp [executeExactMetadataSearch] at hc
  | cons faculty_name rest ih =>
    intro query k c hc
    unfold executeExactMetadataSearch at hc
    dsimp only at hc
    rcases hsearch : env.search query (k * 2) (some faculty_name) with _ | filtered_docs
    · rw [hsearch] at hc
      dsimp only at hc
      rcases List.mem_cons.1 hc with rfl | hc'
      · rfl
      · exact ih query k c hc'
    · rw [hsearch] at hc
      dsimp only at hc
      split at hc
      · rcases List.mem_cons.1 hc with rfl | hc'
        · rfl
        · exact ih query k c hc'
      · split at hc
        · rcases List.mem_cons.1 hc with rfl | hc'
          · rfl
          · exact ih query k c hc'
        · rcases List.mem_singleton.1 hc with rfl
          rfl

/-- The widened tier-5 query is strictly longer than the raw query, so the two
are never equal. -/
lemma enhancedFallbackQuery_ne (extracted_names : List Str) (query : Str) :
    enhancedFallbackQuery extracted_names query ≠ query := by
  intro heq
  have hlen := congrArg List.length heq
  simp only [enhancedFallbackQuery, List.length_append] at hlen
  have hone : (" ".toList : Str).length = 1 := rfl
  omega

/-- C5: when tier 1 yields non-empty verified results, retrieve returns
exactly those results finalized, every search it issued carried the raw query
text, and the tier-5 widened query was never issued. -/
theorem tier1_success_short_circuits (env : RetrieverEnv) (query : Str) (k : Nat)
    (h : (executeExactMetadataSearch env (env.extractNames query) query k).1 ≠ []) :
    retrieveWithFacultyAwareness env query k =
      (finalizeResults
        (executeExactMetadataSearch env (env.extractNames query) query k).1 k,
       (executeExactMetadataSearch env (env.extractNames query) query k).2) ∧
    (∀ c ∈ (retrieveWithFacultyAwareness env query k).2, c.queryText = query) ∧
    enhancedFallbackQuery (env.extractNames query) query ∉
      (retrieveWithFacultyAwareness env query k).2.map SearchCall.queryText := by
  have hne : env.extractNames query ≠ [] := by
    intro hnil
    apply h
    rw [hnil]
    rfl
  have hres : retrieveWithFacultyAwareness env query k =
      (finalizeResults
        (executeExactMetadataSearch env (env.extractNames query) query k).1 k,
       (executeExactMetadataSearch env (env.extractNames query) query k).2) := by
    unfold retrieveWithFacultyAwareness
    dsimp only
    rw [if_pos hne, if_pos h]
  refine ⟨hres, ?_, ?_⟩
  · rw [hres]
    exact exactMetadataSearch_calls env (env.extractNames query) query k
  · rw [hres]
    intro hmem
    obtain ⟨c, hc, hq⟩ := List.mem_map.1 hmem
    have := exactMetadataSearch_calls env (env.extractNames query) query k c hc
    exact enhancedFallbackQuery_ne (env.extractNames query) query (by rw [← hq, this])

/-- C5 witness: at the concrete tier-1 environment the hypothesis holds and
the short-circuit theorem applies. -/
theorem tier1_success_short_circuits_witness :
    (executeExactMetadataSearch envTier1 (envTier1.extractNames ("about dr. x".toList))
      ("about dr. x".toList) 4).1 ≠ [] ∧
    ∀ c ∈ (retrieveWithFacultyAwareness envTier1 ("about dr. x".toList) 4).2,
      c.queryText = ("about dr. x".toList) :=
  ⟨by decide,
   (tier1_success_short_circuits envTier1 ("about dr. x".toList) 4 (by decide)).2.1⟩

/-! C2: the tier-5 fallback-to-unfiltered behavior. -/

/-- C2 (amended): when entities were extracted, all four earlier tiers came up
empty, the semantic search succeeds, and post-filtering by the verification
predicate empties the set, the fallback returns the unfiltered semantic
results and retrieve returns them finalized; retrieve can still return zero
documents when the semantic search itself yields none. -/
theorem semantic_fallback_returns_unfiltered (env : RetrieverEnv) (query : Str)
    (k : Nat) (semantic_docs : List Document)
    (hnames : env.extractNames query ≠ [])
    (h1 : (executeExactMetadataSearch env (env.extractNames query) query k).1 = [])
    (h2 : (executeFirstNameSearch env query (lower query) k).1 = [])
    (h3 : (executePartialNameSearch env (env.extractNames query) query k).1 = [])
    (h4 : (executeCrossDomainSearch env (env.extractNames query) query k).1 = [])
    (hsem : env.search (enhancedFallbackQuery (env.extractNames query) query) (k * 2) none
      = some semantic_docs)
    (hfil : semantic_docs.filter (fun doc => (env.extractNames query).any
      (fun name => isDocumentAboutFaculty doc name)) = []) :
    (executeSemanticFallback env query (env.extractNames query) k).1 = semantic_docs ∧
    (retrieveWithFacultyAwareness env query k).1 = finalizeResults semantic_docs k := by
  have h5 : (executeSemanticFallback env query (env.extractNames query) k).1
      = semantic_docs := by
    unfold executeSemanticFallback
    dsimp only
    rw [if_pos hnames, hsem]
    dsimp only
    rw [if_pos hnames, hfil]
    simp
  refine ⟨h5, ?_⟩
  unfold retrieveWithFacultyAwareness
  dsimp only
  simp only [if_pos hnames]
  rw [h1, h2, h3, h4]
  simp [h5]

/-- C2 witness: at the concrete fallback environment the hypotheses hold and
the fallback returns the unfiltered semantic results. -/
theorem semantic_fallback_returns_unfiltered_witness :
    (executeSemanticFallback envFallback ("tell me about the research".toList)
      (envFallback.extractNames ("tell me about the research".toList)) 4).1
        = [offTargetDoc] ∧
    (retrieveWithFacultyAwareness envFallback ("tell me about the research".toList) 4).1
        = finalizeResults [offTargetDoc] 4 :=
  semantic_fallback_returns_unfiltered envFallback ("tell me about the research".toList)
    4 [offTargetDoc] (by decide) (by decide) (by decide) (by decide) (by decide)
    (by decide) (by decide)

/-- C2 counterexample: a non-trivial query (an entity was extracted) for which
retrieve returns zero documents, because the semantic search itself returns
none; so "retrieve never returns zero documents for a non-trivial query" does
not hold unconditionally. -/
theorem retrieve_can_return_zero_documents :
    envEmptyStore.extractNames ("tell me about dr. x research".toList) ≠ [] ∧
    (retrieveWithFacultyAwareness envEmptyStore
      ("tell me about dr. x research".toList) 4).1 = [] := by
  decide

/-! C6: the director-intent override. -/

/-- C6 (amended): a query matching the director-intent vocabulary that
matches neither the exit-intent nor the faculty-list vocabulary extracts
exactly the configured director name, whatever else the query contains and
whichever phrasing variant matched. -/
theorem director_query_extracts_director (db : ExtractorData) (query : Str)
    (director_name : Str)
    (hdir : (queryPreprocessing (lower query)).hasDirectorPatterns = true)
    (hexit : (queryPreprocessing (lower query)).hasExitWords = false)
    (hlist : (queryPreprocessing (lower query)).hasFacultyListPatterns = false)
    (hlookup : lookupTable db.specialPositions directorKey = some director_name)
    (hname : director_name ≠ []) :
    extractNamesInternal db query = [director_name] := by
  unfold extractNamesInternal
  dsimp only
  rw [hexit, hlist, hdir, hlookup]
  simp [hname]

/-- C6 counterexample: a query matching the director-intent vocabulary whose
extraction is the empty list, because the exit-word early exit runs before the
director override; so director resolution is not independent of the query's
other content. -/
theorem director_query_not_unconditional :
    (queryPreprocessing (lower ("thanks! who is the director".toList))).hasDirectorPatterns
        = true ∧
    extractNamesInternal dbDirector ("thanks! who is the director".toList) = [] := by
  decide

/-- C6 witness: a plain director query extracts the configured director. -/
theorem director_query_extracts_director_witness :
    extractNamesInternal dbDirector ("who is the director".toList)
      = [("Dr. Debasisa Mohanty".toList)] :=
  director_query_extracts_director dbDirector ("who is the director".toList)
    ("Dr. Debasisa Mohanty".toList) (by decide) (by decide) (by decide) (by decide)
    (by decide)

/-! C7: ambiguous-surname disambiguation. -/

lemma foldl_add_clueWeight (l : List Str) : ∀ n : Nat,
    l.foldl (fun score clue => score + clueWeight clue) n = n + (l.map clueWeight).sum := by
  induction l with
  | nil => intro n; simp
  | cons clue t ih =>
    intro n
    simp only [List.foldl_cons, List.map_cons, List.sum_cons, ih]
    omega

/-- The candidate score is the sum of the weights of the candidate's clues
contained in the lowercased query. -/
lemma candidateScore_eq_sum (query_lower candidate : Str) :
    candidateScore query_lower candidate =
      (((cluesFor candidate).filter (fun clue => strContains query_lower clue)).map
        clueWeight).sum := by
  unfold candidateScore
  rw [foldl_add_clueWeight]
  omega

lemma candidateScore_nil (query_lower : Str) : candidateScore query_lower [] = 0 := rfl

lemma selectBest_spec (query_lower : Str) :
    ∀ (candidates : List Str) (b : Option Str) (bs : Nat),
      bs ≤ (selectBest query_lower candidates (b, bs)).2 ∧
      (∀ c ∈ candidates,
        candidateScore query_lower c ≤ (selectBest query_lower candidates (b, bs)).2) ∧
      (selectBest query_lower candidates (b, bs) = (b, bs) ∨
        ∃ c ∈ candidates,
          (selectBest query_lower candidates (b, bs)).1 = some c ∧
          (selectBest query_lower candidates (b, bs)).2 = candidateScore query_lower c ∧
          bs < (selectBest query_lower candidates (b, bs)).2) := by
  intro candidates
  induction candidates with
  | nil =>
    intro b bs
    exact ⟨Nat.le_refl _, by simp, Or.inl rfl⟩
  | cons c t ih =>
    intro b bs
    simp only [selectBest]
    by_cases hlt : bs < candidateScore query_lower c
    · rw [if_pos hlt]
      obtain ⟨ha, hb, hc⟩ := ih (some c) (candidateScore query_lower c)
      refine ⟨Nat.le_trans (Nat.le_of_lt hlt) ha, ?_, ?_⟩
      · intro c' hc'
        rcases List.mem_cons.1 hc' with rfl | hmem
        · exact ha
        · exact hb c' hmem
      · rcases hc with heq | ⟨c', hc', h1, h2, h3⟩
        · exact Or.inr ⟨c, List.mem_cons_self c t,
            by rw [heq], by rw [heq], by rw [heq]; exact hlt⟩
        · exact Or.inr ⟨c', List.mem_cons_of_mem c hc', h1, h2,
            Nat.lt_of_lt_of_le hlt ha⟩
    · rw [if_neg hlt]
      obtain ⟨ha, hb, hc⟩ := ih b bs
      refine ⟨ha, ?_, ?_⟩
      · intro c' hc'
        rcases List.mem_cons.1 hc' with rfl | hmem
        · exact Nat.le_trans (Nat.not_lt.1 hlt) ha
        · exact hb c' hmem
      · rcases hc with heq | ⟨c', hm, h1, h2, h3⟩
        · exact Or.inl heq
        · exact Or.inr ⟨c', List.mem_cons_of_mem c hm, h1, h2, h3⟩

/-- With no clue matched anywhere, disambiguation returns all candidates. -/
lemma disambiguateNames_no_clue (query : Str) (candidates : List Str)
    (h : ∀ c ∈ candidates, candidateScore (lower query) c = 0) :
    disambiguateNames query candidates = candidates := by
  obtain ⟨_, hb, hc⟩ := selectBest_spec (lower query) candidates none 0
  unfold disambiguateNames
  dsimp only
  rcases hc with heq | ⟨c, hcmem, _, h2, h3⟩
  · rw [heq]
  · rw [h c hcmem] at h2
    rw [h2] at h3
    exact absurd h3 (Nat.lt_irrefl 0)

/-- With some clue matched, disambiguation returns the single candidate of
maximal (positive) score. -/
lemma disambiguateNames_clue (query : Str) (candidates : List Str) (c₀ : Str)
    (hc₀ : c₀ ∈ candidates) (hpos : 0 < candidateScore (lower query) c₀) :
    ∃ c ∈ candidates, disambiguateNames query candidates = [c] ∧
      0 < candidateScore (lower query) c ∧
      ∀ c' ∈ candidates,
        candidateScore (lower query) c' ≤ candidateScore (lower query) c := by
  obtain ⟨_, hb, hc⟩ := selectBest_spec (lower query) candidates none 0
  rcases hc with heq | ⟨c, hcmem, h1, h2, h3⟩
  · exfalso
    have hle := hb c₀ hc₀
    rw [heq] at hle
    exact absurd (Nat.lt_of_lt_of_le hpos hle) (Nat.lt_irrefl 0)
  · have hposc : 0 < candidateScore (lower query) c := by rw [← h2]; exact h3
    have hnnil : c ≠ [] := by
      intro hnil
      rw [hnil, candidateScore_nil] at hposc
      exact absurd hposc (Nat.lt_irrefl 0)
    refine ⟨c, hcmem, ?_, hposc, ?_⟩
    · unfold disambiguateNames
      dsimp only
      rw [h1]
      simp [hnnil, h3]
    · intro c' hmem
      rw [← h2]
      exact hb c' hmem

/-- Non-empty candidate sets never disambiguate to the empty list. -/
lemma disambiguateNames_ne_nil (query : Str) (candidates : List Str)
    (h : candidates ≠ []) : disambiguateNames query candidates ≠ [] := by
  unfold disambiguateNames
  dsimp only
  cases hsel : (selectBest (lower query) candidates (none, 0)).1 with
  | none => exact h
  | some best =>
    dsimp only
    split
    · simp
    · exact h

lemma findSome?_ambiguous_aux (db : ExtractorData) (query query_lower : Str) :
    ∀ L : List (Str × List Str),
      (L.findSome? (fun p =>
        if strContains query_lower p.1 then
          match lookupAmbiguous db.ambiguousNames p.1 with
          | some candidates =>
            if candidates ≠ [] then
              let disambiguated := disambiguateNames query candidates
              if disambiguated ≠ [] then some disambiguated else none
            else none
          | none => none
        else none)).getD []
      = (match L.findSome? (fun p =>
          if strContains query_lower p.1 then
            match lookupAmbiguous db.ambiguousNames p.1 with
            | some candidates => if candidates ≠ [] then some candidates else none
            | none => none
          else none) with
        | some candidates => disambiguateNames query candidates
        | none => []) := by
  intro L
  induction L with
  | nil => rfl
  | cons p t ih =>
    simp only [List.findSome?_cons]
    by_cases hcon : strContains query_lower p.1 = true
    · rw [if_pos hcon, if_pos hcon]
      cases hlk : lookupAmbiguous db.ambiguousNames p.1 with
      | none => exact ih
      | some candidates =>
        dsimp only
        by_cases hnil : candidates = []
        · rw [hnil]
          simp only [ne_eq, not_true_eq_false, if_false]
          exact ih
        · rw [if_pos hnil, if_pos hnil]
          dsimp only
          rw [if_pos (disambiguateNames_ne_nil query candidates hnil)]
          rfl
    · rw [if_neg hcon, if_neg hcon]
      exact ih

lemma tryAmbiguous_eq_disambiguate (db : ExtractorData) (query query_lower : Str) :
    tryAmbiguousNameResolution db query query_lower =
      match firstAmbiguousCandidates db query_lower with
      | some candidates => disambiguateNames query candidates
      | none => [] := by
  unfold tryAmbiguousNameResolution firstAmbiguousCandidates
  exact findSome?_ambiguous_aux db query query_lower db.ambiguousNames

/-- C7: when no early exit fires and strategies 1-3 fail, extraction
disambiguates the first ambiguous surname's candidate set: the score of a
candidate sums weight 3 for clues longer than 8 characters, 2 for clues
longer than 5, and 1 otherwise over its clues contained in the lowercased
query; a positive score somewhere yields the single maximal-scoring
candidate, and no clue anywhere yields the full candidate set (keeping its
cardinality of at least two). -/
theorem ambiguous_surname_disambiguation (db : ExtractorData) (query : Str)
    (candidates : List Str)
    (hexit : (queryPreprocessing (lower query)).hasExitWords = false)
    (hlist : (queryPreprocessing (lower query)).hasFacultyListPatterns = false)
    (hdir : (queryPreprocessing (lower query)).hasDirectorPatterns = false)
    (hs1 : tryExactFacultyMatching db (lower query) = none)
    (hs2 : tryFirstNameMatching db (lower query) = none)
    (hs3 : tryEnhancedPartialMatching db (lower query) = none)
    (hamb : firstAmbiguousCandidates db (lower query) = some candidates) :
    extractNamesInternal db query = disambiguateNames query candidates ∧
    (∀ c, candidateScore (lower query) c =
      (((cluesFor c).filter (fun clue => strContains (lower query) clue)).map
        clueWeight).sum) ∧
    ((∃ c ∈ candidates, 0 < candidateScore (lower query) c) →
      ∃ c ∈ candidates, extractNamesInternal db query = [c] ∧
        0 < candidateScore (lower query) c ∧
        ∀ c' ∈ candidates,
          candidateScore (lower query) c' ≤ candidateScore (lower query) c) ∧
    ((∀ c ∈ candidates, candidateScore (lower query) c = 0) →
      extractNamesInternal db query = candidates ∧
      (2 ≤ candidates.length → 2 ≤ (extractNamesInternal db query).length)) := by
  have hext : extractNamesInternal db query = disambiguateNames query candidates := by
    unfold extractNamesInternal
    dsimp only
    rw [hexit, hlist, hdir, hs1, hs2, hs3]
    simp only [Bool.or_self, Bool.false_eq_true, if_false]
    rw [tryAmbiguous_eq_disambiguate, hamb]
  refine ⟨hext, fun c => candidateScore_eq_sum (lower query) c, ?_, ?_⟩
  · rintro ⟨c₀, hc₀, hpos⟩
    obtain ⟨c, hcmem, hdis, hposc, hmax⟩ :=
      disambiguateNames_clue query candidates c₀ hc₀ hpos
    exact ⟨c, hcmem, by rw [hext, hdis], hposc, hmax⟩
  · intro hzero
    have := disambiguateNames_no_clue query candidates hzero
    refine ⟨by rw [hext, this], fun h2 => ?_⟩
    rw [hext, this]
    exact h2

/-- C7 witness: at a concrete query containing the ambiguous surname, the
hypotheses hold and extraction equals the disambiguation of the candidate
set. -/
theorem ambiguous_surname_disambiguation_witness :
    extractNamesInternal dbAmbiguous ("gupta misfolding work".toList) =
      disambiguateNames ("gupta misfolding work".toList)
        ["Dr. Sarika Gupta".toList, "Dr. Nimesh Gupta".toList] :=
  (ambiguous_surname_disambiguation dbAmbiguous ("gupta misfolding work".toList)
    ["Dr. Sarika Gupta".toList, "Dr. Nimesh Gupta".toList]
    (by decide) (by decide) (by decide) (by decide) (by decide) (by decide)
    (by decide)).1

/-! C8: the reference resolver's identity cases and bounded acceptance. -/

/-- C8: resolve is the identity on empty history, on queries already naming a
person (a `dr.` or `prof.` marker), and on queries with neither a pronoun nor
an implicit-reference cue; in every other case the result is either the
original query or the stripped generated rewrite, accepted only when
non-empty and shorter than 200 characters; and when the generation call
fails, the original query is returned. -/
theorem resolve_identity_and_bounded (llm : Str → Option Str) (query : Str)
    (chat_history : List ChatEntry) :
    (chat_history = [] → rewriteQueryWithContext llm query chat_history = query) ∧
    ((strContains (lower query) ("dr.".toList) = true ∨
        strContains (lower query) ("prof.".toList) = true) →
      rewriteQueryWithContext llm query chat_history = query) ∧
    (pronounWords.any (fun p => (splitWords (lower query)).contains p) = false →
      implicitReferenceWords.any (fun w => strContains (lower query) w) = false →
      rewriteQueryWithContext llm query chat_history = query) ∧
    (rewriteQueryWithContext llm query chat_history = query ∨
      ∃ output,
        llm (rewritePrompt (List.intercalate ("\n".toList)
          (((chat_history.getLast?).map entryContextParts).getD [])) query) = some output ∧
        rewriteQueryWithContext llm query chat_history = strip output ∧
        0 < (strip output).length ∧ (strip output).length < 200) ∧
    ((∀ prompt, llm prompt = none) →
      rewriteQueryWithContext llm query chat_history = query) := by
  by_cases hh : chat_history = []
  · have hres : rewriteQueryWithContext llm query chat_history = query := by
      unfold rewriteQueryWithContext
      rw [if_pos hh]
    exact ⟨fun _ => hres, fun _ => hres, fun _ _ => hres, Or.inl hres, fun _ => hres⟩
  · unfold rewriteQueryWithContext
    rw [if_neg hh]
    dsimp only
    by_cases hB : (!(pronounWords.any fun p => (splitWords (lower query)).contains p) &&
        !(implicitReferenceWords.any fun w => strContains (lower query) w)) = true
    · rw [if_pos hB]
      exact ⟨fun _ => rfl, fun _ => rfl, fun _ _ => rfl, Or.inl rfl, fun _ => rfl⟩
    · rw [if_neg hB]
      by_cases hC : (strContains (lower query) ("dr.".toList) ||
          strContains (lower query) ("prof.".toList)) = true
      · rw [if_pos hC]
        exact ⟨fun _ => rfl, fun _ => rfl, fun _ _ => rfl, Or.inl rfl, fun _ => rfl⟩
      · rw [if_neg hC]
        refine ⟨fun h => absurd h hh, ?_, ?_, ?_, ?_⟩
        · intro hor
          exfalso
          apply hC
          rw [Bool.or_eq_true]
          exact hor
        · intro hp hi
          exfalso
          apply hB
          rw [Bool.and_eq_true, Bool.not_eq_true', Bool.not_eq_true']
          exact ⟨hp, hi⟩
        · by_cases hD : (((chat_history.getLast?).map entryContextParts).getD []) = []
          · rw [if_pos hD]
            exact Or.inl rfl
          · rw [if_neg hD]
            cases hllm : llm (rewritePrompt (List.intercalate ("\n".toList)
                (((chat_history.getLast?).map entryContextParts).getD [])) query) with
            | none => exact Or.inl rfl
            | some output =>
              dsimp only
              by_cases hlen : 0 < (strip output).length ∧ (strip output).length < 200
              · rw [if_pos hlen]
                exact Or.inr ⟨output, rfl, rfl, hlen.1, hlen.2⟩
              · rw [if_neg hlen]
                exact Or.inl rfl
        · intro hfail
          by_cases hD : (((chat_history.getLast?).map entryContextParts).getD []) = []
          · rw [if_pos hD]
          · rw [if_neg hD]
            rw [hfail]

/-- C8 witness: with an always-failing generator and empty history, resolve
returns the query unchanged. -/
theorem resolve_identity_witness :
    rewriteQueryWithContext (fun _ => none) ("her publications".toList) [] =
      ("her publications".toList) :=
  (resolve_identity_and_bounded (fun _ => none) ("her publications".toList) []).1 rfl

/-! C9: context formatting bounds. -/

lemma formatDocBlock_length_le (i : Nat) (doc : Document) (budget : Nat)
    (hi : i < 5) :
    (formatDocBlock i doc budget).length ≤ budget + 15 := by
  unfold formatDocBlock
  have h9 : (("Document ".toList : Str)).length = 9 := rfl
  have h2 : ((":\n".toList : Str)).length = 2 := rfl
  have h3 : (("...".toList : Str)).length = 3 := rfl
  have hrepr : ((Nat.repr (i + 1)).toList).length = 1 := by
    interval_cases i <;> rfl
  by_cases hc : budget < doc.page_content.length
  · rw [if_pos hc]
    simp only [List.length_append, h9, h2, h3, hrepr, List.length_take]
    omega
  · rw [if_neg hc]
    simp only [List.length_append, h9, h2, hrepr]
    omega

/-- C9 (amended): formatting emits one block per document up to the document
cap (count preserved), the formatted string is those blocks joined by blank
lines, each block's length is at most the per-document budget plus the
15 characters of header and ellipsis, the final context never exceeds the
ceiling plus the truncation marker's length, and the marker is appended
exactly when the pre-cut context exceeds the ceiling. -/
theorem format_context_bounds (docs : List Document) (is_director_query : Bool) :
    (formatBlocks docs (if is_director_query || 3 < docs.length then 5 else 3)
        (if is_director_query then 900 else 800)).length =
      min (if is_director_query || 3 < docs.length then 5 else 3) docs.length ∧
    (docs ≠ [] →
      formatDocs docs (if is_director_query || 3 < docs.length then 5 else 3)
          (if is_director_query then 900 else 800) =
        List.intercalate ("\n\n".toList)
          (formatBlocks docs (if is_director_query || 3 < docs.length then 5 else 3)
            (if is_director_query then 900 else 800))) ∧
    (∀ b ∈ formatBlocks docs (if is_director_query || 3 < docs.length then 5 else 3)
        (if is_director_query then 900 else 800),
      b.length ≤ (if is_director_query then 900 else 800) + 15) ∧
    (chainFormatContext docs is_director_query).length ≤
      contextCeiling is_director_query + truncationMarker.length ∧
    (contextCeiling is_director_query <
        (formatDocs docs (if is_director_query || 3 < docs.length then 5 else 3)
          (if is_director_query then 900 else 800)).length →
      chainFormatContext docs is_director_query =
        (formatDocs docs (if is_director_query || 3 < docs.length then 5 else 3)
            (if is_director_query then 900 else 800)).take
            (contextCeiling is_director_query) ++ truncationMarker) := by
  refine ⟨?_, ?_, ?_, ?_, ?_⟩
  · simp [formatBlocks]
  · intro hne
    unfold formatDocs
    rw [if_neg hne]
  · intro b hb
    unfold formatBlocks at hb
    obtain ⟨p, hp, hpb⟩ := List.mem_map.1 hb
    obtain ⟨i, x⟩ := p
    have hix := List.mk_mem_enum_iff_getElem?.1 hp
    have hlt : i < (docs.take
        (if is_director_query || 3 < docs.length then 5 else 3)).length := by
      rcases List.getElem?_eq_some_iff.1 hix with ⟨h, _⟩
      exact h
    have hcap : (docs.take
        (if is_director_query || 3 < docs.length then 5 else 3)).length ≤ 5 := by
      rw [List.length_take]
      split <;> omega
    rw [← hpb]
    exact formatDocBlock_length_le i x _ (by omega)
  · unfold chainFormatContext
    dsimp only
    by_cases hcut : contextCeiling is_director_query <
        (formatDocs docs (if is_director_query || 3 < docs.length then 5 else 3)
          (if is_director_query then 900 else 800)).length
    · rw [if_pos hcut, List.length_append, List.length_take]
      omega
    · rw [if_neg hcut]
      omega
  · intro hcut
    unfold chainFormatContext
    dsimp only
    rw [if_pos hcut]

set_option maxRecDepth 40000 in
/-- C9 counterexample: the formatted block of an 801-character document is 815
characters long (header, 800 truncated characters, ellipsis), so a formatted
document can exceed the configured 800-character budget. -/
theorem formatted_doc_exceeds_budget :
    formatDocBlock 0 overlongDoc 800 ∈ formatBlocks [overlongDoc] 3 800 ∧
    800 < (formatDocBlock 0 overlongDoc 800).length ∧
    (chainFormatContext [overlongDoc] false).length = 815 := by
  decide

/-- C9 witness: at a concrete non-empty document list the boundary-preserving
conjunct of the bounds theorem applies. -/
theorem format_context_bounds_witness :
    formatDocs [overlongDoc] (if (false : Bool) || 3 < [overlongDoc].length then 5 else 3)
        (if (false : Bool) then 900 else 800) =
      List.intercalate ("\n\n".toList)
        (formatBlocks [overlongDoc]
          (if (false : Bool) || 3 < [overlongDoc].length then 5 else 3)
          (if (false : Bool) then 900 else 800)) :=
  (format_context_bounds [overlongDoc] false).2.1 (by decide)

end NiiRag
